import Mathlib

/-!
Shallow embedding of `gnomad/assessment/summary_stats.py` (gnomad_hail).

The module builds summary variant-classification statistics over a variant
table, binned by allele frequency.  Hail tables are modelled as Lean lists of
rows; Hail expressions over a table are modelled as functions from the row
type; Hail aggregations (`hl.agg.count`, `hl.agg.count_where`) are modelled as
functions from a row list to a natural number.  Hail `case(missing_false=True)`
three-valued predicates are modelled as `Bool`-valued functions on `Option`
fields in which a missing operand makes the predicate fail.  Allele counts are
integers; allele frequencies are rationals (the Python floats only ever meet
comparisons whose outcome is rounding-independent at the inputs considered
here).  A fallible Hail expression (array indexing out of bounds is a fatal
Hail error) is modelled with `Except`.
-/

namespace SummaryStats

/-- A frequency record: a struct with allele count `AC` and allele frequency
`AF`, either of which may be missing.  Rows carry an ordered list of these
records. -/
structure FreqRecord where
  AC : Option Int
  AF : Option ℚ

/-- Three-valued equality `x == n` on an optional integer under
`missing_false=True`: a missing operand makes the predicate false. -/
def optIntEq (x : Option Int) (n : Int) : Bool :=
  match x with
  | some v => v == n
  | none => false

/-- Three-valued `x <= n` on an optional integer under `missing_false=True`. -/
def optIntLe (x : Option Int) (n : Int) : Bool :=
  match x with
  | some v => decide (v ≤ n)
  | none => false

/-- Three-valued `x < q` on an optional rational under `missing_false=True`. -/
def optRatLt (x : Option ℚ) (q : ℚ) : Bool :=
  match x with
  | some v => decide (v < q)
  | none => false

/-- Three-valued `x > q` on an optional rational under `missing_false=True`. -/
def optRatGt (x : Option ℚ) (q : ℚ) : Bool :=
  match x with
  | some v => decide (q < v)
  | none => false

/-- Embedding of `freq_bin_expr` (summary_stats.py lines 18-43): a
`hl.case(missing_false=True)` chain over `freq_expr[index]`, assigning one of
ten frequency-bin labels from the record's AC and AF.  Hail array indexing out
of bounds is a fatal error, modelled as the `Except.error` branch.  The Python
default for `index` is 0; call sites here pass the index explicitly. -/
def freq_bin_expr (freq_expr : List FreqRecord) (index : Nat) : Except String String :=
  match freq_expr[index]? with
  | none => .error "array index out of bounds"
  | some f =>
    .ok
      (if optIntEq f.AC 0 then "Not found"
      else if optIntEq f.AC 1 then "Singleton"
      else if optIntEq f.AC 2 then "Doubleton"
      else if optIntLe f.AC 5 then "AC 3 - 5"
      else if optRatLt f.AF (1/10000) then "AC 6 - 0.01%"
      else if optRatLt f.AF (1/1000) then "0.01% - 0.1%"
      else if optRatLt f.AF (1/100) then "0.1% - 1%"
      else if optRatLt f.AF (1/10) then "1% - 10%"
      else if optRatGt f.AF (95/100) then ">95%"
      else "10% - 95%")

/-- Hamming mismatch count between two character lists (positions beyond the
shorter list are ignored; the functions below only use it on equal-length
inputs). -/
def nMismatch : List Char → List Char → Nat
  | a :: as, b :: bs => (if a == b then 0 else 1) + nMismatch as bs
  | _, _ => 0

/-- Modelled from the spec: `hl.is_snp` is part of the external Hail engine
(out of scope, not in the sources); per the spec a SNP is a single-nucleotide
substitution, i.e. the two alleles have equal length and differ in exactly one
position. -/
def is_snp (ref alt : String) : Bool :=
  ref.length == alt.length && nMismatch ref.data alt.data == 1

/-- Modelled from the spec: Hail's insertion test — the alternate allele is
strictly longer, shares the leading base, and ends with the remainder of the
reference allele. -/
def is_insertion (ref alt : String) : Bool :=
  decide (ref.length < alt.length) && ref.data.head? == alt.data.head?
    && List.isSuffixOf ref.data.tail alt.data

/-- Modelled from the spec: Hail's deletion test, the mirror image of
`is_insertion`. -/
def is_deletion (ref alt : String) : Bool :=
  decide (alt.length < ref.length) && ref.data.head? == alt.data.head?
    && List.isSuffixOf alt.data.tail ref.data

/-- Modelled from the spec: `hl.is_indel` is part of the external Hail engine;
per the spec an indel is an insertion or a deletion, so in particular the two
allele lengths differ. -/
def is_indel (ref alt : String) : Bool :=
  is_insertion ref alt || is_deletion ref alt

/-- Lifts a predicate on an allele pair to the allele array: it is applied to
`alleles[0]` and `alleles[1]`.  An array with fewer than two entries yields no
match (the source's documented precondition is that rows are bi-allelic). -/
def allelePairPred (p : String → String → Bool) (al : List String) : Bool :=
  match al[0]?, al[1]? with
  | some r, some a => p r a
  | _, _ => false

/-- Embedding of `hl.agg.count`: counts the rows of the aggregated group. -/
def hl_agg_count {ρ : Type} : List ρ → Nat :=
  List.length

/-- Embedding of `hl.agg.count_where`: counts the rows of the aggregated group
on which the predicate evaluates to true (a missing predicate value is not
true, hence not counted; the predicates below already encode missing as
`false`). -/
def hl_agg_count_where {ρ : Type} (p : ρ → Bool) : List ρ → Nat :=
  fun rows => rows.countP p

/-- Embedding of `get_summary_counts_dict` (summary_stats.py lines 46-90): a
dictionary, modelled as an association list, from prefixed category name to an
aggregation rule.  The argument expressions `allele_expr`, `lof_expr` and
`no_lof_flags_expr` are functions of the row type `ρ`; `lof_expr == "HC"` and
the conjunction with `no_lof_flags_expr` are Hail three-valued tests that count
a row only when they evaluate to true.  The Python default for `prefix_str` is
the empty string; call sites here pass it explicitly. -/
def get_summary_counts_dict {ρ : Type} (allele_expr : ρ → List String)
    (lof_expr : ρ → Option String) (no_lof_flags_expr : ρ → Option Bool)
    (prefix_str : String) : List (String × (List ρ → Nat)) :=
  [ (prefix_str ++ "num_variants", hl_agg_count),
    (prefix_str ++ "indels",
      hl_agg_count_where (fun r => allelePairPred is_indel (allele_expr r))),
    (prefix_str ++ "snps",
      hl_agg_count_where (fun r => allelePairPred is_snp (allele_expr r))),
    (prefix_str ++ "LOF",
      hl_agg_count_where (fun r => (lof_expr r).isSome)),
    (prefix_str ++ "pass_loftee",
      hl_agg_count_where (fun r => lof_expr r == some "HC")),
    (prefix_str ++ "pass_loftee_no_flag",
      hl_agg_count_where (fun r =>
        (lof_expr r == some "HC") && (no_lof_flags_expr r == some true))),
    (prefix_str ++ "loftee_os",
      hl_agg_count_where (fun r => lof_expr r == some "OS")),
    (prefix_str ++ "fail_loftee",
      hl_agg_count_where (fun r => lof_expr r == some "LC")) ]

/-- A row of the summary-counts pipeline's input table: the variant filter
status (PASS iff empty), the frequency-record array, the allele array, the
LOFTEE annotation and its no-flags indicator, and region membership consumed
by the external low-confidence-region filter. -/
structure SummaryRow where
  filters : List String
  freq : List FreqRecord
  alleles : List String
  lof : Option String
  no_lof_flags : Option Bool
  in_lcr : Bool
  in_decoy : Bool

/-- Modelled from the spec: `filter_low_conf_regions` (gnomad.utils.filtering)
is repository code outside the given sources; per the spec it excludes rows in
low-confidence regions and, when `filter_decoy` is true, additionally rows in
decoy regions. -/
def filter_low_conf_regions (rows : List SummaryRow) (filter_decoy : Bool) :
    List SummaryRow :=
  rows.filter (fun r => !r.in_lcr && (!filter_decoy || !r.in_decoy))

/-- Evaluates the aggregation dictionary over a concrete row group, yielding
the mapping from category name to count. -/
def evalCountsDict {ρ : Type} (allele_expr : ρ → List String)
    (lof_expr : ρ → Option String) (no_lof_flags_expr : ρ → Option Bool)
    (prefix_str : String) (rows : List ρ) : List (String × Nat) :=
  (get_summary_counts_dict allele_expr lof_expr no_lof_flags_expr prefix_str).map
    (fun kv => (kv.1, kv.2 rows))

/-- The result of `get_summary_counts`: the table grouped by frequency-bin
label with the per-bin category counts, together with the total counts
attached to the table's globals. -/
structure GroupedTable where
  freq_bins : List (String × List (String × Nat))
  summary_counts : List (String × Nat)

/-- Annotates one row with its frequency-bin label at index 0 of the selected
frequency field; fails when the frequency array is empty (Hail indexing
error). -/
def annotateFreqBin (freqOf : SummaryRow → List FreqRecord) (r : SummaryRow) :
    Except String (SummaryRow × String) :=
  (freq_bin_expr (freqOf r) 0).map (fun b => (r, b))

/-- Embedding of `get_summary_counts` (summary_stats.py lines 93-153).  The
external VEP collaborators `filter_vep_to_canonical_transcripts` and
`get_most_severe_consequence_for_summary` (repository code outside the given
sources, declared external collaborators by the spec) are taken as opaque
row transformations `vep_canonical` and `vep_most_severe`.  The field-name
parameters `freq_field` and `filter_field` of the Python function are modelled
as the field accessors `freqOf` and `filterOf` (Python defaults: the `freq`
and `filters` fields).  Steps, in source order: keep rows with empty filter
status, apply `filter_low_conf_regions`, apply the two VEP steps, annotate
each row with `freq_bin_expr` at index 0, aggregate the totals with prefix
`total_` into the globals, and return the table grouped by `freq_bin` with
the unprefixed counts aggregated per bin. -/
def get_summary_counts (vep_canonical vep_most_severe : SummaryRow → SummaryRow)
    (ht : List SummaryRow) (freqOf : SummaryRow → List FreqRecord)
    (filterOf : SummaryRow → List String) (filter_decoy : Bool) :
    Except String GroupedTable :=
  let ht1 := ht.filter (fun r => (filterOf r).length == 0)
  let ht2 := filter_low_conf_regions ht1 filter_decoy
  let ht3 := ht2.map vep_canonical
  let ht4 := ht3.map vep_most_severe
  match ht4.mapM (annotateFreqBin freqOf) with
  | .error e => .error e
  | .ok ht5 =>
    .ok
      { freq_bins :=
          ((ht5.map Prod.snd).dedup).map (fun b =>
            (b, evalCountsDict (fun p => p.1.alleles) (fun p => p.1.lof)
              (fun p => p.1.no_lof_flags) "" (ht5.filter (fun p => p.2 == b)))),
        summary_counts :=
          evalCountsDict (fun p => p.1.alleles) (fun p => p.1.lof)
            (fun p => p.1.no_lof_flags) "total_" ht5 }

/-- Looks a category count up in an evaluated counts mapping (0 if absent). -/
def lookupNat (l : List (String × Nat)) (k : String) : Nat :=
  (List.lookup k l).getD 0

/-- First-match evaluation of an ordered list of (condition, label) pairs with
a fallback label, written from the spec's description of the binner as an
ordered set of predicates where the first match wins. -/
def firstLabel : List (Bool × String) → String → String
  | [], d => d
  | (c, s) :: rest, d => if c then s else firstLabel rest d

/-- The spec's priority-ordered predicate table for a record with defined
allele count `ac` and defined allele frequency `af`. -/
def freqBinSpecRules (ac : Int) (af : ℚ) : List (Bool × String) :=
  [ (ac == 0, "Not found"),
    (ac == 1, "Singleton"),
    (ac == 2, "Doubleton"),
    (decide (ac ≤ 5), "AC 3 - 5"),
    (decide (af < 1/10000), "AC 6 - 0.01%"),
    (decide (af < 1/1000), "0.01% - 0.1%"),
    (decide (af < 1/100), "0.1% - 1%"),
    (decide (af < 1/10), "1% - 10%"),
    (decide (af > 95/100), ">95%") ]

/-- The ten frequency-bin labels, in the order of the case chain. -/
def freqBinLabels : List String :=
  ["Not found", "Singleton", "Doubleton", "AC 3 - 5", "AC 6 - 0.01%",
   "0.01% - 0.1%", "0.1% - 1%", "1% - 10%", ">95%", "10% - 95%"]

/-- C5: at the rule boundaries, the AC-based rules win before any AF rule is
consulted and every AF threshold is a strict less-than: AC=5 with AF=0.5 gets
"AC 3 - 5"; AC=6 with AF=0.00009 gets "AC 6 - 0.01%" while AC=6 with
AF=0.0001 gets "0.01% - 0.1%". -/
theorem freq_bin_expr_boundary_cases :
    freq_bin_expr [⟨some 5, some (1/2)⟩] 0 = .ok "AC 3 - 5" ∧
    freq_bin_expr [⟨some 6, some (9/100000)⟩] 0 = .ok "AC 6 - 0.01%" ∧
    freq_bin_expr [⟨some 6, some (1/10000)⟩] 0 = .ok "0.01% - 0.1%" := by
  refine ⟨?_, ?_, ?_⟩ <;>
    · simp only [freq_bin_expr, optIntEq, optIntLe, optRatLt, optRatGt,
        List.getElem?_cons_zero]
      norm_num

/-- C9: evaluating `freq_bin_expr` at an index that is not in range for the
frequency-record sequence is the fatal error branch, not a silently defaulted
label; a valid index is a precondition on the caller. -/
theorem freq_bin_expr_index_out_of_bounds (freq : List FreqRecord) (i : Nat)
    (h : freq.length ≤ i) :
    freq_bin_expr freq i = .error "array index out of bounds" := by
  simp [freq_bin_expr, List.getElem?_eq_none h]

theorem freq_bin_expr_index_out_of_bounds_witness :
    ([] : List FreqRecord).length ≤ 0 ∧
      freq_bin_expr [] 0 = .error "array index out of bounds" :=
  ⟨by decide, freq_bin_expr_index_out_of_bounds [] 0 (by decide)⟩

/-- C4: a record whose AC and AF are both missing fails every predicate of
`freq_bin_expr` (missing is treated as not-satisfied, never as an error and
never as a match) and receives the fallback label "10% - 95%". -/
theorem freq_bin_expr_missing_fallback (freq : List FreqRecord) (i : Nat)
    (h : i < freq.length) (hac : (freq.get ⟨i, h⟩).AC = none)
    (haf : (freq.get ⟨i, h⟩).AF = none) :
    freq_bin_expr freq i = .ok "10% - 95%" := by
  have hidx : freq[i]? = some (freq.get ⟨i, h⟩) := by
    simp [List.getElem?_eq_getElem h]
  simp only [List.get_eq_getElem] at hac haf
  simp [freq_bin_expr, hidx, hac, haf, optIntEq, optIntLe, optRatLt, optRatGt]

theorem freq_bin_expr_missing_fallback_witness :
    0 < ([⟨none, none⟩] : List FreqRecord).length ∧
      freq_bin_expr [⟨none, none⟩] 0 = .ok "10% - 95%" :=
  ⟨by decide, freq_bin_expr_missing_fallback [⟨none, none⟩] 0 (by decide) rfl rfl⟩

/-- C1: for a valid index whose record has defined AC and AF, `freq_bin_expr`
returns the label of the first matching predicate in the fixed priority order
given by `freqBinSpecRules` (with "10% - 95%" when no predicate matches), and
the assigned label is exactly one of the ten labels. -/
theorem freq_bin_expr_first_match (freq : List FreqRecord) (i : Nat)
    (h : i < freq.length) (ac : Int) (af : ℚ)
    (hac : (freq.get ⟨i, h⟩).AC = some ac) (haf : (freq.get ⟨i, h⟩).AF = some af) :
    freq_bin_expr freq i = .ok (firstLabel (freqBinSpecRules ac af) "10% - 95%") ∧
    firstLabel (freqBinSpecRules ac af) "10% - 95%" ∈ freqBinLabels := by
  have hidx : freq[i]? = some (freq.get ⟨i, h⟩) := by
    simp [List.getElem?_eq_getElem h]
  simp only [List.get_eq_getElem] at hac haf
  constructor
  · simp only [freq_bin_expr, hidx, List.get_eq_getElem, hac, haf, optIntEq,
      optIntLe, optRatLt, optRatGt, freqBinSpecRules, firstLabel]
  · simp only [freqBinSpecRules, firstLabel, freqBinLabels]
    split_ifs <;> simp

theorem freq_bin_expr_first_match_witness :
    0 < ([⟨some 1, some (1/2)⟩] : List FreqRecord).length ∧
      (freq_bin_expr [⟨some 1, some (1/2)⟩] 0 =
        .ok (firstLabel (freqBinSpecRules 1 (1/2)) "10% - 95%") ∧
      firstLabel (freqBinSpecRules 1 (1/2)) "10% - 95%" ∈ freqBinLabels) :=
  ⟨by decide,
    freq_bin_expr_first_match [⟨some 1, some (1/2)⟩] 0 (by decide) 1 (1/2) rfl rfl⟩

theorem string_append_left_injective (p : String) :
    Function.Injective (fun s => p ++ s) := by
  intro s t h
  apply String.ext
  have hd := congrArg String.data h
  simp only [String.data_append] at hd
  exact List.append_cancel_left hd

/-- C3: `get_summary_counts_dict` returns a mapping with exactly the eight
prefixed keys, and its aggregation rules count, respectively: all rows; rows
whose two alleles form an indel; rows whose two alleles form a
single-nucleotide substitution; rows with a defined LOFTEE annotation; rows
annotated "HC"; rows annotated "HC" with no flags; rows annotated "OS"; and
rows annotated "LC". -/
theorem get_summary_counts_dict_keys_and_rules {ρ : Type}
    (allele_expr : ρ → List String) (lof_expr : ρ → Option String)
    (no_lof_flags_expr : ρ → Option Bool) (prefix_str : String) (rows : List ρ) :
    ((get_summary_counts_dict allele_expr lof_expr no_lof_flags_expr
        prefix_str).map Prod.fst =
      [prefix_str ++ "num_variants", prefix_str ++ "indels",
       prefix_str ++ "snps", prefix_str ++ "LOF", prefix_str ++ "pass_loftee",
       prefix_str ++ "pass_loftee_no_flag", prefix_str ++ "loftee_os",
       prefix_str ++ "fail_loftee"]) ∧
    ((get_summary_counts_dict allele_expr lof_expr no_lof_flags_expr
        prefix_str).map Prod.fst).Nodup ∧
    evalCountsDict allele_expr lof_expr no_lof_flags_expr prefix_str rows =
      [ (prefix_str ++ "num_variants", rows.length),
        (prefix_str ++ "indels",
          rows.countP (fun r => allelePairPred is_indel (allele_expr r))),
        (prefix_str ++ "snps",
          rows.countP (fun r => allelePairPred is_snp (allele_expr r))),
        (prefix_str ++ "LOF", rows.countP (fun r => (lof_expr r).isSome)),
        (prefix_str ++ "pass_loftee",
          rows.countP (fun r => lof_expr r == some "HC")),
        (prefix_str ++ "pass_loftee_no_flag",
          rows.countP (fun r =>
            (lof_expr r == some "HC") && (no_lof_flags_expr r == some true))),
        (prefix_str ++ "loftee_os",
          rows.countP (fun r => lof_expr r == some "OS")),
        (prefix_str ++ "fail_loftee",
          rows.countP (fun r => lof_expr r == some "LC")) ] := by
  refine ⟨rfl, ?_, rfl⟩
  have hmap : (get_summary_counts_dict allele_expr lof_expr no_lof_flags_expr
      prefix_str).map Prod.fst =
      ["num_variants", "indels", "snps", "LOF", "pass_loftee",
       "pass_loftee_no_flag", "loftee_os", "fail_loftee"].map
        (fun s => prefix_str ++ s) := rfl
  rw [hmap]
  exact List.Nodup.map (string_append_left_injective prefix_str) (by decide)

/-- C7: the count produced by the pass_loftee_no_flag aggregation rule is at
most the count produced by the pass_loftee rule, for every row group, since
the former's predicate conjoins the latter's with the no-flags condition. -/
theorem pass_loftee_no_flag_le_pass_loftee {ρ : Type}
    (allele_expr : ρ → List String) (lof_expr : ρ → Option String)
    (no_lof_flags_expr : ρ → Option Bool) (prefix_str : String) (rows : List ρ) :
    ∃ f g,
      (prefix_str ++ "pass_loftee_no_flag", f) ∈
        get_summary_counts_dict allele_expr lof_expr no_lof_flags_expr prefix_str ∧
      (prefix_str ++ "pass_loftee", g) ∈
        get_summary_counts_dict allele_expr lof_expr no_lof_flags_expr prefix_str ∧
      f rows ≤ g rows := by
  refine ⟨hl_agg_count_where (fun r =>
      (lof_expr r == some "HC") && (no_lof_flags_expr r == some true)),
    hl_agg_count_where (fun r => lof_expr r == some "HC"), ?_, ?_, ?_⟩
  · simp [get_summary_counts_dict]
  · simp [get_summary_counts_dict]
  · simp only [hl_agg_count_where]
    exact List.countP_mono_left (fun x _ hx => by
      simp only [Bool.and_eq_true] at hx
      exact hx.1)

theorem countP_disjoint_le_length {ρ : Type} (p q : ρ → Bool) (l : List ρ)
    (hd : ∀ x, ¬(p x = true ∧ q x = true)) :
    l.countP p + l.countP q ≤ l.length := by
  induction l with
  | nil => simp
  | cons x t ih =>
    have hx := hd x
    simp only [List.countP_cons, List.length_cons]
    cases hp : p x <;> cases hq : q x <;> simp_all <;> omega

theorem countP_three_exclusive_le {ρ : Type} (p1 p2 p3 q : ρ → Bool)
    (l : List ρ)
    (h1 : ∀ x, p1 x = true → q x = true)
    (h2 : ∀ x, p2 x = true → q x = true)
    (h3 : ∀ x, p3 x = true → q x = true)
    (d12 : ∀ x, ¬(p1 x = true ∧ p2 x = true))
    (d13 : ∀ x, ¬(p1 x = true ∧ p3 x = true))
    (d23 : ∀ x, ¬(p2 x = true ∧ p3 x = true)) :
    l.countP p1 + l.countP p2 + l.countP p3 ≤ l.countP q := by
  induction l with
  | nil => simp
  | cons x t ih =>
    have hx1 := h1 x
    have hx2 := h2 x
    have hx3 := h3 x
    have hx12 := d12 x
    have hx13 := d13 x
    have hx23 := d23 x
    simp only [List.countP_cons]
    cases hp1 : p1 x <;> cases hp2 : p2 x <;> cases hp3 : p3 x <;>
      cases hq : q x <;> simp_all <;> omega

theorem is_snp_length_eq (ref alt : String) (h : is_snp ref alt = true) :
    ref.length = alt.length := by
  simp only [is_snp, Bool.and_eq_true, beq_iff_eq] at h
  exact h.1

theorem is_indel_length_ne (ref alt : String) (h : is_indel ref alt = true) :
    ref.length ≠ alt.length := by
  simp only [is_indel, is_insertion, is_deletion, Bool.or_eq_true,
    Bool.and_eq_true, decide_eq_true_eq] at h
  rcases h with ⟨hlt, -⟩ | ⟨hlt, -⟩ <;> omega

theorem not_is_indel_and_is_snp (ref alt : String) :
    ¬(is_indel ref alt = true ∧ is_snp ref alt = true) := by
  rintro ⟨hi, hs⟩
  exact is_indel_length_ne ref alt hi (is_snp_length_eq ref alt hs)

theorem allelePairPred_exclusive (p q : String → String → Bool)
    (hpq : ∀ r a, ¬(p r a = true ∧ q r a = true)) (al : List String) :
    ¬(allelePairPred p al = true ∧ allelePairPred q al = true) := by
  rintro ⟨hp, hq⟩
  unfold allelePairPred at hp hq
  rcases h0 : al[0]? with - | r <;> rcases h1 : al[1]? with - | a <;>
    rw [h0, h1] at hp hq <;> simp at hp hq
  exact hpq r a ⟨hp, hq⟩

/-- C8: on every row group of bi-allelic rows, the num_variants rule counts
exactly the number of rows, and the indels count plus the snps count is at
most that number: no allele pair is counted as both an indel and a
single-nucleotide substitution. -/
theorem num_variants_total_and_indel_snp_disjoint {ρ : Type}
    (allele_expr : ρ → List String) (lof_expr : ρ → Option String)
    (no_lof_flags_expr : ρ → Option Bool) (prefix_str : String) (rows : List ρ)
    (hbi : ∀ r ∈ rows, (allele_expr r).length = 2) :
    ∃ fnum find fsnp,
      (prefix_str ++ "num_variants", fnum) ∈
        get_summary_counts_dict allele_expr lof_expr no_lof_flags_expr prefix_str ∧
      (prefix_str ++ "indels", find) ∈
        get_summary_counts_dict allele_expr lof_expr no_lof_flags_expr prefix_str ∧
      (prefix_str ++ "snps", fsnp) ∈
        get_summary_counts_dict allele_expr lof_expr no_lof_flags_expr prefix_str ∧
      fnum rows = rows.length ∧ find rows + fsnp rows ≤ rows.length := by
  refine ⟨hl_agg_count,
    hl_agg_count_where (fun r => allelePairPred is_indel (allele_expr r)),
    hl_agg_count_where (fun r => allelePairPred is_snp (allele_expr r)),
    ?_, ?_, ?_, rfl, ?_⟩
  · simp [get_summary_counts_dict]
  · simp [get_summary_counts_dict]
  · simp [get_summary_counts_dict]
  · simp only [hl_agg_count_where]
    exact countP_disjoint_le_length _ _ rows (fun x =>
      allelePairPred_exclusive is_indel is_snp not_is_indel_and_is_snp
        (allele_expr x))

theorem num_variants_total_and_indel_snp_disjoint_witness :
    (∀ r ∈ [["A", "T"]], (id r : List String).length = 2) ∧
    (∃ fnum find fsnp,
      ("" ++ "num_variants", fnum) ∈
        get_summary_counts_dict (ρ := List String) id (fun _ => none)
          (fun _ => none) "" ∧
      ("" ++ "indels", find) ∈
        get_summary_counts_dict (ρ := List String) id (fun _ => none)
          (fun _ => none) "" ∧
      ("" ++ "snps", fsnp) ∈
        get_summary_counts_dict (ρ := List String) id (fun _ => none)
          (fun _ => none) "" ∧
      fnum [["A", "T"]] = [["A", "T"]].length ∧
      find [["A", "T"]] + fsnp [["A", "T"]] ≤ [["A", "T"]].length) :=
  ⟨by decide,
    num_variants_total_and_indel_snp_disjoint (ρ := List String) id
      (fun _ => none) (fun _ => none) "" [["A", "T"]] (by decide)⟩

/-- C10: the pass_loftee, loftee_os and fail_loftee counts sum to at most the
LOF count on every row group: each of the predicates lof == "HC", lof == "OS"
and lof == "LC" implies the annotation is defined, and the three are pairwise
mutually exclusive. -/
theorem loftee_category_sum_le_lof {ρ : Type}
    (allele_expr : ρ → List String) (lof_expr : ρ → Option String)
    (no_lof_flags_expr : ρ → Option Bool) (prefix_str : String) (rows : List ρ) :
    ∃ fhc fos flc flof,
      (prefix_str ++ "pass_loftee", fhc) ∈
        get_summary_counts_dict allele_expr lof_expr no_lof_flags_expr prefix_str ∧
      (prefix_str ++ "loftee_os", fos) ∈
        get_summary_counts_dict allele_expr lof_expr no_lof_flags_expr prefix_str ∧
      (prefix_str ++ "fail_loftee", flc) ∈
        get_summary_counts_dict allele_expr lof_expr no_lof_flags_expr prefix_str ∧
      (prefix_str ++ "LOF", flof) ∈
        get_summary_counts_dict allele_expr lof_expr no_lof_flags_expr prefix_str ∧
      fhc rows + fos rows + flc rows ≤ flof rows := by
  refine ⟨hl_agg_count_where (fun r => lof_expr r == some "HC"),
    hl_agg_count_where (fun r => lof_expr r == some "OS"),
    hl_agg_count_where (fun r => lof_expr r == some "LC"),
    hl_agg_count_where (fun r => (lof_expr r).isSome),
    ?_, ?_, ?_, ?_, ?_⟩
  · simp [get_summary_counts_dict]
  · simp [get_summary_counts_dict]
  · simp [get_summary_counts_dict]
  · simp [get_summary_counts_dict]
  · simp only [hl_agg_count_where]
    refine countP_three_exclusive_le _ _ _ _ rows ?_ ?_ ?_ ?_ ?_ ?_ <;>
      intro x <;> simp_all

/-- C2: the pipeline performs its steps in source order: PASS filter on the
filter-status field, external low-confidence-region filter (decoys iff
`filter_decoy`), canonical-transcript restriction, most-severe-consequence
derivation, frequency-bin annotation at index 0, total counts with prefix
"total_" attached as a global, and the returned table grouped by bin label
with the same counts unprefixed per bin.  Moreover every row surviving the
first two steps has an empty filter-status field, is outside low-confidence
regions, and is outside decoy regions whenever `filter_decoy` is set. -/
theorem get_summary_counts_step_order
    (vep_canonical vep_most_severe : SummaryRow → SummaryRow)
    (ht : List SummaryRow) (freqOf : SummaryRow → List FreqRecord)
    (filterOf : SummaryRow → List String) (filter_decoy : Bool) :
    (get_summary_counts vep_canonical vep_most_severe ht freqOf filterOf
        filter_decoy =
      (match (((filter_low_conf_regions
            (ht.filter (fun r => (filterOf r).length == 0)) filter_decoy).map
              vep_canonical).map vep_most_severe).mapM (annotateFreqBin freqOf)
        with
        | .error e => .error e
        | .ok ht5 =>
          .ok
            { freq_bins :=
                ((ht5.map Prod.snd).dedup).map (fun b =>
                  (b, evalCountsDict (fun p => p.1.alleles) (fun p => p.1.lof)
                    (fun p => p.1.no_lof_flags) ""
                    (ht5.filter (fun p => p.2 == b)))),
              summary_counts :=
                evalCountsDict (fun p => p.1.alleles) (fun p => p.1.lof)
                  (fun p => p.1.no_lof_flags) "total_" ht5 })) ∧
    (∀ r ∈ filter_low_conf_regions
        (ht.filter (fun r => (filterOf r).length == 0)) filter_decoy,
      (filterOf r).length = 0 ∧ r.in_lcr = false ∧
        (filter_decoy = true → r.in_decoy = false)) := by
  constructor
  · rfl
  · intro r hr
    unfold filter_low_conf_regions at hr
    rw [List.mem_filter] at hr
    obtain ⟨hr1, hr2⟩ := hr
    rw [List.mem_filter] at hr1
    obtain ⟨-, hpass⟩ := hr1
    simp only [Bool.and_eq_true, Bool.or_eq_true, Bool.not_eq_true'] at hr2
    refine ⟨by simpa using hpass, hr2.1, fun hfd => ?_⟩
    rcases hr2.2 with hcase | hcase
    · rw [hfd] at hcase
      cases hcase
    · exact hcase

theorem sum_map_indicator_count (a : String) (ks : List String) :
    (ks.map (fun b => if (a == b) = true then 1 else 0)).sum = ks.count a := by
  induction ks with
  | nil => simp
  | cons b t ih =>
    simp only [List.map_cons, List.sum_cons, List.count_cons, ih]
    by_cases h : a = b
    · subst h
      simp [Nat.add_comm]
    · have h2 : (a == b) = false := by simp [h]
      have h3 : (b == a) = false := by
        simp only [beq_eq_false_iff_ne, ne_eq]
        intro e
        exact h e.symm
      simp [h2, h3]

theorem sum_filter_key_length {β : Type} (key : β → String) (ks : List String)
    (hnd : ks.Nodup) :
    ∀ l : List β, (∀ x ∈ l, key x ∈ ks) →
      (ks.map (fun b => (l.filter (fun x => key x == b)).length)).sum
        = l.length := by
  intro l
  induction l with
  | nil =>
    intro _
    refine List.sum_eq_zero ?_
    intro x hx
    simp at hx
    omega
  | cons y t ih =>
    intro hmem
    have hy : key y ∈ ks := hmem y (List.mem_cons_self y t)
    have hmt : ∀ x ∈ t, key x ∈ ks := fun x hx =>
      hmem x (List.mem_cons_of_mem y hx)
    have hstep : ks.map (fun b => ((y :: t).filter (fun x => key x == b)).length)
        = ks.map (fun b => (if (key y == b) = true then 1 else 0)
            + (t.filter (fun x => key x == b)).length) := by
      refine List.map_congr_left ?_
      intro b _
      by_cases h : (key y == b) = true <;> simp [List.filter_cons, h] <;> omega
    rw [hstep, List.sum_map_add, sum_map_indicator_count,
      List.count_eq_one_of_mem hnd hy, ih hmt]
    simp [Nat.add_comm]

theorem lookup_num_variants_eval {ρ : Type} (allele_expr : ρ → List String)
    (lof_expr : ρ → Option String) (no_lof_flags_expr : ρ → Option Bool)
    (rows : List ρ) :
    lookupNat (evalCountsDict allele_expr lof_expr no_lof_flags_expr "" rows)
      "num_variants" = rows.length := rfl

theorem lookup_total_num_variants_eval {ρ : Type} (allele_expr : ρ → List String)
    (lof_expr : ρ → Option String) (no_lof_flags_expr : ρ → Option Bool)
    (rows : List ρ) :
    lookupNat
      (evalCountsDict allele_expr lof_expr no_lof_flags_expr "total_" rows)
      "total_num_variants" = rows.length := rfl

/-- C6: in the table returned by `get_summary_counts`, the per-bin
num_variants values sum, over all output frequency bins, to the global
total_num_variants attached to the same table: every successfully annotated
row falls into exactly one bin. -/
theorem sum_bin_num_variants_eq_total
    (vep_canonical vep_most_severe : SummaryRow → SummaryRow)
    (ht : List SummaryRow) (freqOf : SummaryRow → List FreqRecord)
    (filterOf : SummaryRow → List String) (filter_decoy : Bool)
    (gt : GroupedTable)
    (hok : get_summary_counts vep_canonical vep_most_severe ht freqOf filterOf
      filter_decoy = .ok gt) :
    (gt.freq_bins.map (fun b => lookupNat b.2 "num_variants")).sum =
      lookupNat gt.summary_counts "total_num_variants" := by
  simp only [get_summary_counts] at hok
  cases hm : (((filter_low_conf_regions
      (ht.filter (fun r => (filterOf r).length == 0)) filter_decoy).map
        vep_canonical).map vep_most_severe).mapM (annotateFreqBin freqOf) with
  | error e =>
    rw [hm] at hok
    cases hok
  | ok ht5 =>
    rw [hm] at hok
    obtain rfl := (Except.ok.inj hok).symm
    simp only [List.map_map, Function.comp, lookup_num_variants_eval,
      lookup_total_num_variants_eval]
    exact sum_filter_key_length Prod.snd ((ht5.map Prod.snd).dedup)
      (List.nodup_dedup _) ht5
      (fun x hx => List.mem_dedup.mpr (List.mem_map_of_mem Prod.snd hx))

/-- A one-row input table exercising the summary-counts pipeline. -/
def witnessRow : SummaryRow :=
  { filters := [], freq := [⟨some 1, none⟩], alleles := ["A", "T"],
    lof := some "HC", no_lof_flags := some true, in_lcr := false,
    in_decoy := false }

/-- The grouped table produced by running the pipeline on `witnessRow`. -/
def witnessTable : GroupedTable :=
  { freq_bins := [("Singleton",
      [("num_variants", 1), ("indels", 0), ("snps", 1), ("LOF", 1),
       ("pass_loftee", 1), ("pass_loftee_no_flag", 1), ("loftee_os", 0),
       ("fail_loftee", 0)])],
    summary_counts :=
      [("total_num_variants", 1), ("total_indels", 0), ("total_snps", 1),
       ("total_LOF", 1), ("total_pass_loftee", 1),
       ("total_pass_loftee_no_flag", 1), ("total_loftee_os", 0),
       ("total_fail_loftee", 0)] }

theorem sum_bin_num_variants_eq_total_witness :
    (get_summary_counts id id [witnessRow] SummaryRow.freq SummaryRow.filters
      false = .ok witnessTable) ∧
    ((witnessTable.freq_bins.map (fun b => lookupNat b.2 "num_variants")).sum =
      lookupNat witnessTable.summary_counts "total_num_variants") :=
  ⟨rfl,
    sum_bin_num_variants_eq_total id id [witnessRow] SummaryRow.freq
      SummaryRow.filters false witnessTable rfl⟩

end SummaryStats
